import Mathlib

/-!
Verification of the registry-proxy interception layer
(`src/ui/proxy/interceptors.go` of xiaods/harbor).

The development shallowly embeds the Go source.  Paths and bodies are
`String`/`List Char`; the HTTP handlers become pure functions from an
explicit request plus an explicit external world (notary, scan store,
policy store, global toggles) to a stage outcome; the package-level
`var rec` recorder is modelled as an explicit process-state slot where
a claim needs it.

The manifest URL regular expression

  `^/v2/((?:[a-z0-9]+(?:[._-][a-z0-9]+)*/)+)manifests/([\w][\w.:-]{0,127})`

is embedded as an equivalent executable matcher: the expression is
start-anchored and not end-anchored; every repetition of group 1 must
consume one full `/`-terminated path segment that lies in the token
language `[a-z0-9]+([._-][a-z0-9]+)*` (a token cannot stop early,
because the next required character is `/`, which is not a token
character); greedy matching tries the longest possible run of such
segments first and backtracks one segment at a time, which the
fuelled matcher `goFuel` reproduces; group 2 greedily takes one word
character and then up to 127 further characters from `[\w.:-]`.
-/

/-- Character class `[a-z0-9]` of the manifest URL pattern. -/
def isLowerDigit (c : Char) : Bool :=
  (('a' ≤ c) && (c ≤ 'z')) || (('0' ≤ c) && (c ≤ '9'))

/-- Character class `[._-]` of the manifest URL pattern. -/
def isSepChar (c : Char) : Bool :=
  (c == '.') || (c == '_') || (c == '-')

/-- Character class `\w` of Go regexp, i.e. `[0-9A-Za-z_]`. -/
def isWordChar (c : Char) : Bool :=
  isLowerDigit c || (('A' ≤ c) && (c ≤ 'Z')) || (c == '_')

/-- Character class `[\w.:-]` of the manifest URL pattern. -/
def isRefChar (c : Char) : Bool :=
  isWordChar c || (c == '.') || (c == ':') || (c == '-')

/-- DFA for the token language `[a-z0-9]+([._-][a-z0-9]+)*` after its
first character: the flag records whether the previous character was
`[a-z0-9]` (the accepting state); a separator is legal only there and
moves to the non-accepting state. -/
def tokenRun : Bool → List Char → Bool
  | st, [] => st
  | st, c :: cs =>
    if isLowerDigit c then tokenRun true cs
    else if isSepChar c then st && tokenRun false cs
    else false

/-- Whole-segment membership in the token language
`[a-z0-9]+([._-][a-z0-9]+)*` of the manifest URL pattern. -/
def tokenOK : List Char → Bool
  | [] => false
  | c :: cs => isLowerDigit c && tokenRun true cs

/-- Split a character list at its first `/`: returns the part before
the slash and the remainder after it, or `none` when no `/` occurs. -/
def takeSeg : List Char → Option (List Char × List Char)
  | [] => none
  | c :: cs =>
    if c = '/' then some ([], cs)
    else
      match takeSeg cs with
      | some (seg, rest) => some (c :: seg, rest)
      | none => none

/-- Remove the literal `p` from the front of `s`, or `none` when `s`
does not start with `p`. -/
def dropPre : List Char → List Char → Option (List Char)
  | [], s => some s
  | _ :: _, [] => none
  | p :: ps, c :: cs => if c = p then dropPre ps cs else none

/-- Greedily take at most `n` leading characters satisfying `p`. -/
def takeWhileN (p : Char → Bool) : Nat → List Char → List Char
  | _, [] => []
  | 0, _ :: _ => []
  | n + 1, c :: cs => if p c then c :: takeWhileN p n cs else []

/-- Greedy match of the reference group `([\w][\w.:-]{0,127})` at the
front of the input (the pattern is not end-anchored, so trailing input
after the matched reference is ignored). -/
def refMatch : List Char → Option (List Char)
  | [] => none
  | c :: cs => if isWordChar c then some (c :: takeWhileN isRefChar 127 cs) else none

/-- The raw text of a run of group-1 repetitions: each segment is
followed by one `/`. -/
def flattenSegs : List (List Char) → List Char
  | [] => []
  | t :: ts => t ++ '/' :: flattenSegs ts

/-- Literal `/v2/` of the manifest URL pattern. -/
def v2Lit : List Char := "/v2/".data

/-- Literal `manifests/` of the manifest URL pattern. -/
def manifestsLit : List Char := "manifests/".data

/-- Attempt to finish the match at the current position: requires at
least one group-1 repetition already consumed (`acc` nonempty), the
literal `manifests/`, and then the reference group. -/
def tryHere (s : List Char) (acc : List (List Char)) :
    Option (List (List Char) × List Char) :=
  if acc.isEmpty then none
  else
    match dropPre manifestsLit s with
    | some r => (refMatch r).map (fun f => (acc, f))
    | none => none

/-- Backtracking matcher for
`((?:[a-z0-9]+(?:[._-][a-z0-9]+)*/)+)manifests/([\w][\w.:-]{0,127})`:
greedily consume one more token segment and recurse; on failure of the
deeper alternative, try the `manifests/` literal at this position.
The fuel only bounds the recursion depth; each step consumes at least
one character, so `length + 1` fuel is always enough. -/
def goFuel : Nat → List Char → List (List Char) →
    Option (List (List Char) × List Char)
  | 0, _, _ => none
  | fuel + 1, s, acc =>
    match takeSeg s with
    | some (seg, rest) =>
      if tokenOK seg then
        match goFuel fuel rest (acc ++ [seg]) with
        | some r => some r
        | none => tryHere s acc
      else tryHere s acc
    | none => tryHere s acc

/-- The group matcher run with sufficient fuel. -/
def goMatch (s : List Char) (acc : List (List Char)) :
    Option (List (List Char) × List Char) :=
  goFuel (s.length + 1) s acc

/-- Model of `strings.TrimSuffix(s, "/")`. -/
def trimSlashSuffix (l : List Char) : List Char :=
  if l.getLast? = some '/' then l.dropLast else l

/-- `MatchPullManifest` (interceptors.go lines 43-55): GET requests
whose path matches the start-anchored manifest URL pattern yield
`(true, repository, reference)`, where the trailing slash of the
captured segment run is trimmed; everything else yields
`(false, "", "")`. -/
def MatchPullManifest (method : String) (path : String) :
    Bool × String × String :=
  if method = "GET" then
    match dropPre v2Lit path.data with
    | some s =>
      match goMatch s [] with
      | some (segs, f) =>
        (true, String.mk (trimSlashSuffix (flattenSegs segs)), String.mk f)
      | none => (false, "", "")
    | none => (false, "", "")
  else (false, "", "")

/-- A reference group value as the spec describes it: 1 to 128
characters, the first from `\w`, the rest from `[\w.:-]`. -/
def RefOK : List Char → Prop
  | [] => False
  | c :: cs => isWordChar c = true ∧ cs.length ≤ 127 ∧ ∀ x ∈ cs, isRefChar x = true

/-- Declarative form of the matching condition, written from the
spec's words: the method is GET and the path decomposes into `/v2/`,
one or more `/`-terminated token segments, the literal `manifests/`, a
valid reference, and an arbitrary remainder. -/
def SpecManifestPull (method : String) (path : String) : Prop :=
  method = "GET" ∧
    ∃ segs f rest, segs ≠ [] ∧ (∀ t ∈ segs, tokenOK t = true) ∧ RefOK f ∧
      path.data = v2Lit ++ flattenSegs segs ++ manifestsLit ++ f ++ rest

/-- An HTTP response as captured or written: status code, header
multimap, body text. Models both `httptest.ResponseRecorder` contents
and what a handler writes to its `http.ResponseWriter`. -/
structure Response where
  status : Nat
  headers : List (String × List String)
  body : String
deriving DecidableEq

/-- A fresh `http.ResponseWriter` before anything is written. -/
def newWriter : Response := { status := 200, headers := [], body := "" }

/-- `imageInfo` (interceptors.go lines 111-116). -/
structure imageInfo where
  repository : String
  tag : String
  projectName : String
  digest : String
deriving DecidableEq

/-- An inbound request: method, URL path, and the request context
restricted to the single key `imageInfoCtxKey` the package uses. -/
structure Request where
  method : String
  path : String
  ctxImage : Option imageInfo
deriving DecidableEq

/-- `JSONError` (interceptors.go lines 274-279). -/
structure JSONError where
  code : Nat
  message : String
  details : String
deriving DecidableEq

/-- Model of `encoding/json` string escaping on the message alphabet
this package emits (only quote and backslash need escaping there). -/
def jsonEscapeChar (c : Char) : String :=
  if c = '"' then "\\\"" else if c = '\\' then "\\\\" else String.singleton c

/-- Escape a string for inclusion in a JSON literal. -/
def jsonEscape (s : String) : String :=
  String.join (s.data.map jsonEscapeChar)

/-- `marshalError` (interceptors.go lines 260-272): serialize a
`JSONError` whose message and details both carry `msg` and whose code
is `statusCode`; fields in declaration order, all present since the
package never passes a zero code or empty message. -/
def marshalError (msg : String) (statusCode : Nat) : String :=
  "\x7b\"code\":" ++ toString statusCode ++ ",\"message\":\"" ++ jsonEscape msg ++
    "\",\"details\":\"" ++ jsonEscape msg ++ "\"\x7d"

/-- Model of Go's `http.Error(rw, body, code)`: writes the plain-text
error headers, the status `code`, and `body` followed by a newline. -/
def httpError (body : String) (code : Nat) : Response :=
  { status := code
    headers := [("Content-Type", ["text/plain; charset=utf-8"]),
                ("X-Content-Type-Options", ["nosniff"])]
    body := body ++ "\n" }

/-- Read the `code` field back out of a serialized error body: the
body must start with the serialized code field, whose digits are
parsed. Used to compare the advertised JSON code with the HTTP
status. -/
def errorBodyCode (body : String) : Option Nat :=
  match dropPre ("\x7b\"code\":").data body.data with
  | some r =>
    let ds := r.takeWhile Char.isDigit
    if ds = [] then none
    else some (ds.foldl (fun n c => n * 10 + (c.toNat - 48)) 0)
  | none => none

/-- First value under a header key, Go `http.Header.Get` (the keys the
package uses are already in canonical form). -/
def lookupHeader : List (String × List String) → String → Option (List String)
  | [], _ => none
  | kv :: rest, k => if kv.1 = k then some kv.2 else lookupHeader rest k

/-- Set a header key to a value list, Go `rw.Header()[k] = v`. -/
def setHeader : List (String × List String) → String → List String →
    List (String × List String)
  | [], k, v => [(k, v)]
  | kv :: rest, k, v =>
    if kv.1 = k then (k, v) :: rest else kv :: setHeader rest k v

/-- Copy every header of `src` into `dst`, as the loop in `copyResp`
does. -/
def copyHeaders (dst src : List (String × List String)) :
    List (String × List String) :=
  src.foldl (fun d kv => setHeader d kv.1 kv.2) dst

/-- `copyResp` (interceptors.go lines 252-258): copy every recorded
header into the writer, write the recorded status, append the recorded
body bytes. -/
def copyResp (recorded rw : Response) : Response :=
  { status := recorded.status
    headers := copyHeaders rw.headers recorded.headers
    body := rw.body ++ recorded.body }

/-- `http.Header.Get` for a single string value, empty when absent. -/
def headerGet (hs : List (String × List String)) (k : String) : String :=
  match lookupHeader hs k with
  | some (v :: _) => v
  | _ => ""

/-- Modelled from the spec: the totally ordered SeverityLevel
enumeration `Unknown < Negligible < Low < Medium < High < Critical`
(`models.Severity` lives outside src/). -/
inductive Severity where
  | unknown
  | negligible
  | low
  | medium
  | high
  | critical
deriving DecidableEq

/-- The integer value of a severity level, used exactly as the Go code
uses `int(severity)` for the threshold comparison. -/
def Severity.toNat : Severity → Nat
  | .unknown => 0
  | .negligible => 1
  | .low => 2
  | .medium => 3
  | .high => 4
  | .critical => 5

/-- Modelled from the spec: display names of the severity levels (the
`models.Severity` string form lives outside src/). -/
def sevName : Severity → String
  | .unknown => "Unknown"
  | .negligible => "Negligible"
  | .low => "Low"
  | .medium => "Medium"
  | .high => "High"
  | .critical => "Critical"

/-- Modelled from the spec: `clair.ParseClairSev` maps a stored
severity name to a level, defaulting to the unknown level (the clair
utility lives outside src/). -/
def parseClairSev (s : String) : Severity :=
  if s = "Negligible" then .negligible
  else if s = "Low" then .low
  else if s = "Medium" then .medium
  else if s = "High" then .high
  else if s = "Critical" then .critical
  else .unknown

/-- The denial message built at interceptors.go lines 212-213 (`%q`
renders each severity quoted). -/
def vulnDenyMsg (imageSev threshold : Severity) : String :=
  "The severity of vulnerability of the image: \"" ++ sevName imageSev ++
    "\" is equal or higher than the threshold in project setting: \"" ++
    sevName threshold ++ "\"."

/-- `policyChecker` (interceptors.go lines 58-63) as a record of its
two capabilities. -/
structure policyChecker where
  contentTrustEnabled : String → Bool
  vulnerablePolicy : String → Bool × Severity

/-- The tenant/project settings record the checker reads
(`models.Project` fields used by this package). -/
structure Project where
  enableContentTrust : Bool
  preventVulnerableImagesFromRunning : Bool
  preventVulnerableImagesFromRunningSeverity : String

/-- The project store: `pc.pm.Get(name)` either errors or yields the
project settings. -/
structure ProjectManager where
  get : String → Except Unit Project

/-- `pmsPolicyChecker` (interceptors.go lines 75-94): on a store
lookup error, content trust reports enabled and the vulnerability
policy reports enabled with the unknown severity level. -/
def pmsPolicyChecker (pm : ProjectManager) : policyChecker where
  contentTrustEnabled := fun name =>
    match pm.get name with
    | Except.error _ => true
    | Except.ok project => project.enableContentTrust
  vulnerablePolicy := fun name =>
    match pm.get name with
    | Except.error _ => (true, Severity.unknown)
    | Except.ok project =>
      (project.preventVulnerableImagesFromRunning,
        parseClairSev project.preventVulnerableImagesFromRunningSeverity)

/-- A signed target as returned by the trust subsystem, with the
outcome of `notary.DigestFromTarget` attached (the notary helpers live
outside src/; a target either yields its registered digest or fails). -/
structure NotaryTarget where
  tag : String
  digestResult : Except Unit String

/-- The tag-search loop of `matchNotaryDigest` (interceptors.go lines
238-249): the first target whose tag equals the request tag decides
the result; no tag match yields a non-error `false`. -/
def matchLoop (img : imageInfo) : List NotaryTarget → Except Unit Bool
  | [] => Except.ok false
  | t :: ts =>
    if t.tag = img.tag then
      match t.digestResult with
      | Except.error e => Except.error e
      | Except.ok d => Except.ok (img.digest == d)
    else matchLoop img ts

/-- `matchNotaryDigest` (interceptors.go lines 233-250), with the
trust-subsystem query `notary.GetInternalTargets` passed in as the
oracle `getTargets`. -/
def matchNotaryDigest (getTargets : String → Except Unit (List NotaryTarget))
    (img : imageInfo) : Except Unit Bool :=
  match getTargets img.repository with
  | Except.error e => Except.error e
  | Except.ok targets => matchLoop img targets

/-- The stored scan overview for a digest (`models.ImgScanOverview`
restricted to the field this package reads). -/
structure ImgScanOverview where
  sev : Severity
deriving DecidableEq

/-- The external collaborators and global toggles a request's handlers
consult: `config.WithNotary`, `config.WithClair`, the policy checker
selected by `getPolicyChecker`, the trust-subsystem query, and the
scan-overview store `dao.GetImgScanOverview`. -/
structure World where
  withNotary : Bool
  withClair : Bool
  checker : policyChecker
  notaryTargets : String → Except Unit (List NotaryTarget)
  scanOverview : String → Except Unit (Option ImgScanOverview)

/-- Outcome of one interception stage: pass the request to the next
handler, or terminate with a written response. -/
inductive StageResult where
  | next
  | halt (r : Response)
deriving DecidableEq

/-- `contentTrustHandler.ServeHTTP` (interceptors.go lines 158-180). -/
def contentTrustServe (w : World) (req : Request) : StageResult :=
  match req.ctxImage with
  | none => StageResult.next
  | some img =>
    if w.withNotary = false then StageResult.next
    else if w.checker.contentTrustEnabled img.projectName = false then
      StageResult.next
    else
      match matchNotaryDigest w.notaryTargets img with
      | Except.error _ =>
        StageResult.halt (httpError
          (marshalError "Failed in communication with Notary please check the log" 500) 500)
      | Except.ok false =>
        StageResult.halt (httpError
          (marshalError "The image is not signed in Notary." 412) 412)
      | Except.ok true => StageResult.next

/-- `vulnerableHandler.ServeHTTP` (interceptors.go lines 186-217). -/
def vulnerableServe (w : World) (req : Request) : StageResult :=
  match req.ctxImage with
  | none => StageResult.next
  | some img =>
    if w.withClair = false then StageResult.next
    else
      let p := w.checker.vulnerablePolicy img.projectName
      if p.1 = false then StageResult.next
      else
        match w.scanOverview img.digest with
        | Except.error _ =>
          StageResult.halt (httpError
            (marshalError "Failed to get ImgScanOverview." 412) 412)
        | Except.ok none =>
          StageResult.halt (httpError
            (marshalError "Cannot get the image scan overview info." 412) 412)
        | Except.ok (some ov) =>
          if ov.sev.toNat ≥ p.2.toNat then
            StageResult.halt (httpError
              (marshalError (vulnDenyMsg ov.sev p.2) 412) 412)
          else StageResult.next

/-- `funnelHandler.ServeHTTP` (interceptors.go lines 223-231) for a
given current content of the recorder slot. -/
def funnelServe (recorded : Response) (req : Request) : StageResult :=
  match req.ctxImage with
  | some _ => StageResult.halt (copyResp recorded newWriter)
  | none => StageResult.next

/-- Model of `strings.SplitN(s, "/", 2)`. -/
def splitN2 (s : List Char) : List (List Char) :=
  match takeSeg s with
  | none => [s]
  | some (a, b) => [a, b]

/-- Model of `strings.TrimPrefix(s, pfx)`. -/
def trimPfxS (pfx s : String) : String :=
  match dropPre pfx.data s.data with
  | some r => String.mk r
  | none => s

/-- Outcome of `urlHandler.ServeHTTP` before the rest of the chain
runs: a malformed-repository error, an immediate replay of a non-200
buffered response, a forward of the context-enriched request together
with its buffered response, or a fall-through of an unmatched
request. -/
inductive UrlOutcome where
  | malformed (r : Response)
  | earlyReplay (r : Response)
  | forward (req : Request) (recorded : Response)
  | fallthru (req : Request)
deriving DecidableEq

/-- `urlHandler.ServeHTTP` (interceptors.go lines 124-152): trim the
registry proxy prefix, match the pull-manifest pattern, reject
repositories with fewer than two `/`-separated components, buffer the
downstream response via `next`, replay non-200 buffers immediately,
otherwise attach the `imageInfo` derived from the buffered
`Docker-Content-Digest` header and forward. -/
def urlServe (pfx : String) (next : Request → Response) (req0 : Request) :
    UrlOutcome :=
  let req : Request := { req0 with path := trimPfxS pfx req0.path }
  let m := MatchPullManifest req.method req.path
  if m.1 = true then
    let components := splitN2 m.2.1.data
    if components.length < 2 then
      UrlOutcome.malformed (httpError
        (marshalError ("Bad repository name: " ++ m.2.1) 500) 400)
    else
      let recorded := next req
      if recorded.status ≠ 200 then
        UrlOutcome.earlyReplay (copyResp recorded newWriter)
      else
        UrlOutcome.forward
          { req with ctxImage := some (imageInfo.mk m.2.1 m.2.2
              (String.mk (components.headD []))
              (headerGet recorded.headers "Docker-Content-Digest")) }
          recorded
  else UrlOutcome.fallthru req

/-- Modelled from the spec: the chain order RequestMatcher →
ContentTrustStage → VulnerabilityStage → ReleaseStage → backend (the
wiring of the four handlers lives outside src/; spec section 2 fixes
the order). `recorded` is the current content of the recorder slot the
funnel replays from. -/
def chainServe (w : World) (recorded : Response)
    (backend : Request → Response) (req : Request) : Response :=
  match contentTrustServe w req with
  | StageResult.halt r => r
  | StageResult.next =>
    match vulnerableServe w req with
    | StageResult.halt r => r
    | StageResult.next =>
      match funnelServe recorded req with
      | StageResult.halt r => r
      | StageResult.next => backend req

/-- One inbound request served end to end, sequentially (the shared
recorder slot is exercised separately for the concurrency claim): the
url handler buffers through the policy chain (whose stages all skip
while no descriptor is in context), then the enriched request runs
through the chain again for policy gating and replay. -/
def fullServe (w : World) (pfx : String) (backend : Request → Response)
    (method path : String) : Response :=
  match urlServe pfx (chainServe w newWriter backend) ⟨method, path, none⟩ with
  | UrlOutcome.malformed r => r
  | UrlOutcome.earlyReplay r => r
  | UrlOutcome.forward req recorded => chainServe w recorded backend req
  | UrlOutcome.fallthru req => chainServe w newWriter backend req

/-- The process-wide mutable state of the package: the single
package-level recorder `var rec` (interceptors.go lines 33-34). -/
structure ProcState where
  recSlot : Response
deriving DecidableEq

/-- The buffering step of `urlHandler.ServeHTTP` (interceptors.go
lines 134-135) as a transition on the process state: `rec =
httptest.NewRecorder(); uh.next.ServeHTTP(rec, req)` overwrites the
shared slot with this request's backend response. -/
def bufferInto (backend : Request → Response) (req : Request)
    (_ : ProcState) : ProcState :=
  { recSlot := backend req }

/-- The release step of `funnelHandler.ServeHTTP` (interceptors.go
line 227): replay whatever the shared slot currently holds. -/
def releaseFromShared (st : ProcState) : Response :=
  copyResp st.recSlot newWriter

/-- A concrete 200 backend response carrying a digest header. -/
def respA : Response :=
  { status := 200
    headers := [("Docker-Content-Digest", ["sha256:aaa"])]
    body := "manifest-A" }

/-- A second, different concrete 200 backend response. -/
def respB : Response :=
  { status := 200
    headers := [("Docker-Content-Digest", ["sha256:bbb"])]
    body := "manifest-B" }

/-- A concrete 404 backend response. -/
def resp404 : Response := { status := 404, headers := [], body := "not found" }

/-- A concrete matched manifest-pull request. -/
def reqA : Request :=
  { method := "GET", path := "/v2/proja/repo/manifests/t1", ctxImage := none }

/-- A second concrete matched manifest-pull request. -/
def reqB : Request :=
  { method := "GET", path := "/v2/projb/repo/manifests/t2", ctxImage := none }

/-- A backend serving different responses to `reqA` and `reqB`. -/
def backendAB : Request → Response :=
  fun r => if r.path = reqB.path then respB else respA

/-- A backend always answering 404. -/
def backend404 : Request → Response := fun _ => resp404

/-- A concrete image descriptor. -/
def imgEx : imageInfo :=
  { repository := "proj/repo", tag := "v1", projectName := "proj"
    digest := "sha256:abc" }

/-- A concrete request carrying `imgEx` in its context. -/
def reqEx : Request :=
  { method := "GET", path := "/v2/proj/repo/manifests/v1"
    ctxImage := some imgEx }

/-- A checker enforcing both policies with a medium threshold. -/
def checkerOn : policyChecker :=
  { contentTrustEnabled := fun _ => true
    vulnerablePolicy := fun _ => (true, Severity.medium) }

/-- A world whose trust subsystem knows no signed target. -/
def wEmptyTargets : World :=
  { withNotary := true, withClair := true, checker := checkerOn
    notaryTargets := fun _ => Except.ok []
    scanOverview := fun _ => Except.error () }

/-- A world with content trust off whose scan-overview lookup errors. -/
def wScanErr : World :=
  { withNotary := false, withClair := true, checker := checkerOn
    notaryTargets := fun _ => Except.ok []
    scanOverview := fun _ => Except.error () }

/-- A world with content trust off and no scan overview on record. -/
def wScanNone : World :=
  { withNotary := false, withClair := true, checker := checkerOn
    notaryTargets := fun _ => Except.ok []
    scanOverview := fun _ => Except.ok none }

/-- A world with content trust off reporting a high-severity scan. -/
def wScanHigh : World :=
  { withNotary := false, withClair := true, checker := checkerOn
    notaryTargets := fun _ => Except.ok []
    scanOverview := fun _ => Except.ok (some { sev := Severity.high }) }

/-- Two signed targets with the same tag and different digests. -/
def targetsDup : List NotaryTarget :=
  [{ tag := "v1", digestResult := Except.ok "sha256:one" },
   { tag := "v1", digestResult := Except.ok "sha256:two" }]

/-- A trust subsystem returning both duplicated-tag targets. -/
def notaryDup : String → Except Unit (List NotaryTarget) :=
  fun _ => Except.ok targetsDup

/-- A trust subsystem returning only the first of the two targets. -/
def notaryFirst : String → Except Unit (List NotaryTarget) :=
  fun _ => Except.ok [{ tag := "v1", digestResult := Except.ok "sha256:one" }]

/-- An image whose digest agrees with the second duplicated target
only. -/
def imgDup : imageInfo :=
  { repository := "proj/repo", tag := "v1", projectName := "proj"
    digest := "sha256:two" }

/-- A project manager whose store lookup always fails. -/
def pmErr : ProjectManager := { get := fun _ => Except.error () }

theorem takeSeg_eq : ∀ s seg rest, takeSeg s = some (seg, rest) →
    s = seg ++ '/' :: rest ∧ '/' ∉ seg := by
  intro s
  induction s with
  | nil => intro seg rest h; simp [takeSeg] at h
  | cons c cs ih =>
    intro seg rest h
    by_cases hc : c = '/'
    · subst hc
      simp [takeSeg] at h
      obtain ⟨h1, h2⟩ := h
      subst h1; subst h2
      simp
    · simp only [takeSeg, if_neg hc] at h
      cases htk : takeSeg cs with
      | none => rw [htk] at h; simp at h
      | some pr =>
        obtain ⟨sg, r⟩ := pr
        rw [htk] at h
        simp at h
        obtain ⟨h1, h2⟩ := h
        obtain ⟨hcs, hnot⟩ := ih sg r htk
        subst h2
        constructor
        · rw [← h1]; simp [hcs]
        · rw [← h1]
          intro hmem
          rcases List.mem_cons.mp hmem with h | h
          · exact hc h.symm
          · exact hnot h

theorem takeSeg_append : ∀ seg rest, '/' ∉ seg →
    takeSeg (seg ++ '/' :: rest) = some (seg, rest) := by
  intro seg
  induction seg with
  | nil => intro rest _; simp [takeSeg]
  | cons c cs ih =>
    intro rest hns
    have hc : ¬ c = '/' := by
      intro h; exact hns (by simp [h])
    have hcs : '/' ∉ cs := by
      intro h; exact hns (by simp [h])
    rw [List.cons_append]
    simp only [takeSeg, if_neg hc]
    rw [ih rest hcs]

theorem dropPre_eq : ∀ p s r, dropPre p s = some r → s = p ++ r := by
  intro p
  induction p with
  | nil => intro s r h; simpa [dropPre] using h
  | cons x xs ih =>
    intro s r h
    cases s with
    | nil => simp [dropPre] at h
    | cons c cs =>
      by_cases hc : c = x
      · subst hc
        simp only [dropPre, if_pos rfl] at h
        simp [ih cs r h]
      · simp [dropPre, if_neg hc] at h

theorem dropPre_append : ∀ p r, dropPre p (p ++ r) = some r := by
  intro p
  induction p with
  | nil => intro r; simp [dropPre]
  | cons x xs ih => intro r; simp [dropPre, ih]

theorem takeWhileN_all (p : Char → Bool) :
    ∀ cs n c, c ∈ takeWhileN p n cs → p c = true := by
  intro cs
  induction cs with
  | nil => intro n c h; simp [takeWhileN] at h
  | cons x xs ih =>
    intro n c h
    cases n with
    | zero => simp [takeWhileN] at h
    | succ m =>
      by_cases hx : p x
      · simp only [takeWhileN, if_pos hx] at h
        rcases List.mem_cons.mp h with h | h
        · rw [h]; exact hx
        · exact ih m c h
      · simp [takeWhileN, hx] at h

theorem takeWhileN_len (p : Char → Bool) :
    ∀ cs n, (takeWhileN p n cs).length ≤ n := by
  intro cs
  induction cs with
  | nil => intro n; simp [takeWhileN]
  | cons x xs ih =>
    intro n
    cases n with
    | zero => simp [takeWhileN]
    | succ m =>
      by_cases hx : p x
      · simp only [takeWhileN, if_pos hx, List.length_cons]
        exact Nat.succ_le_succ (ih m)
      · simp [takeWhileN, hx]

theorem takeWhileN_split (p : Char → Bool) :
    ∀ cs n, ∃ rest, cs = takeWhileN p n cs ++ rest := by
  intro cs
  induction cs with
  | nil => intro n; exact ⟨[], by simp [takeWhileN]⟩
  | cons x xs ih =>
    intro n
    cases n with
    | zero => exact ⟨x :: xs, by simp [takeWhileN]⟩
    | succ m =>
      by_cases hx : p x
      · obtain ⟨rest, hr⟩ := ih m
        refine ⟨rest, ?_⟩
        simp only [takeWhileN, if_pos hx, List.cons_append]
        rw [← hr]
      · exact ⟨x :: xs, by simp [takeWhileN, hx]⟩

theorem refMatch_sound : ∀ r f, refMatch r = some f →
    RefOK f ∧ ∃ rest, r = f ++ rest := by
  intro r f h
  cases r with
  | nil => simp [refMatch] at h
  | cons c cs =>
    by_cases hw : isWordChar c
    · simp only [refMatch, if_pos hw, Option.some.injEq] at h
      subst h
      obtain ⟨rest, hr⟩ := takeWhileN_split isRefChar cs 127
      refine ⟨⟨hw, takeWhileN_len isRefChar cs 127,
        fun x hx => takeWhileN_all isRefChar cs 127 x hx⟩, ⟨rest, ?_⟩⟩
      rw [List.cons_append, ← hr]
    · simp [refMatch, hw] at h

theorem refMatch_isSome : ∀ f rest, RefOK f → (refMatch (f ++ rest)).isSome = true := by
  intro f rest hf
  cases f with
  | nil => exact absurd hf (by simp [RefOK])
  | cons c cs =>
    obtain ⟨hw, _, _⟩ := hf
    simp [refMatch, hw]

theorem tryHere_sound : ∀ s acc segs f, tryHere s acc = some (segs, f) →
    acc ≠ [] ∧ segs = acc ∧ RefOK f ∧ ∃ rest, s = manifestsLit ++ f ++ rest := by
  intro s acc segs f h
  by_cases hacc : acc.isEmpty
  · simp [tryHere, hacc] at h
  · simp only [tryHere, if_neg hacc] at h
    cases hdp : dropPre manifestsLit s with
    | none => rw [hdp] at h; simp at h
    | some r =>
      rw [hdp] at h
      simp only [Option.map_eq_some'] at h
      obtain ⟨f0, hrm, hpair⟩ := h
      obtain ⟨h1, h2⟩ := Prod.mk.injEq .. ▸ hpair
      subst h1; subst h2
      obtain ⟨href, rest, hr⟩ := refMatch_sound r f0 hrm
      refine ⟨by simpa [List.isEmpty_iff] using hacc, rfl, href, ⟨rest, ?_⟩⟩
      rw [dropPre_eq manifestsLit s r hdp, hr]
      simp

theorem tokenRun_chars : ∀ s st, tokenRun st s = true →
    ∀ c ∈ s, isLowerDigit c = true ∨ isSepChar c = true := by
  intro s
  induction s with
  | nil => intro st _ c hc; simp at hc
  | cons x xs ih =>
    intro st ht c hc
    by_cases hld : isLowerDigit x
    · simp only [tokenRun, if_pos hld] at ht
      rcases List.mem_cons.mp hc with h | h
      · exact Or.inl (h ▸ hld)
      · exact ih true ht c h
    · by_cases hsp : isSepChar x
      · simp only [tokenRun, if_neg hld, if_pos hsp, Bool.and_eq_true] at ht
        rcases List.mem_cons.mp hc with h | h
        · exact Or.inr (h ▸ hsp)
        · exact ih false ht.2 c h
      · simp [tokenRun, hld, hsp] at ht

theorem tokenOK_chars : ∀ s, tokenOK s = true →
    ∀ c ∈ s, isLowerDigit c = true ∨ isSepChar c = true := by
  intro s hs c hc
  cases s with
  | nil => simp [tokenOK] at hs
  | cons x xs =>
    simp only [tokenOK, Bool.and_eq_true] at hs
    rcases List.mem_cons.mp hc with h | h
    · exact Or.inl (h ▸ hs.1)
    · exact tokenRun_chars xs true hs.2 c h

theorem tokenOK_no_slash : ∀ s, tokenOK s = true → '/' ∉ s := by
  intro s hs hmem
  rcases tokenOK_chars s hs '/' hmem with h | h
  · simp [isLowerDigit] at h
  · simp [isSepChar] at h

theorem goFuel_sound : ∀ fuel s acc segs f,
    goFuel fuel s acc = some (segs, f) →
    ∃ pre rest, segs = acc ++ pre ∧ (∀ t ∈ pre, tokenOK t = true) ∧
      (acc = [] → pre ≠ []) ∧ RefOK f ∧
      s = flattenSegs pre ++ manifestsLit ++ f ++ rest := by
  intro fuel
  induction fuel with
  | zero => intro s acc segs f h; simp [goFuel] at h
  | succ n ih =>
    intro s acc segs f h
    have fromTryHere : tryHere s acc = some (segs, f) →
        ∃ pre rest, segs = acc ++ pre ∧ (∀ t ∈ pre, tokenOK t = true) ∧
          (acc = [] → pre ≠ []) ∧ RefOK f ∧
          s = flattenSegs pre ++ manifestsLit ++ f ++ rest := by
      intro hth
      obtain ⟨hne, hsegs, href, rest, hs⟩ := tryHere_sound s acc segs f hth
      exact ⟨[], rest, by simp [hsegs], by simp, fun hnil => absurd hnil hne,
        href, by simpa [flattenSegs] using hs⟩
    cases htk : takeSeg s with
    | none =>
      simp only [goFuel, htk] at h
      exact fromTryHere h
    | some pr =>
      obtain ⟨seg, rest0⟩ := pr
      by_cases htok : tokenOK seg
      · simp only [goFuel, htk, if_pos htok] at h
        cases hin : goFuel n rest0 (acc ++ [seg]) with
        | none =>
          rw [hin] at h
          exact fromTryHere h
        | some r =>
          rw [hin] at h
          obtain ⟨segs0, f0⟩ := r
          obtain ⟨h1, h2⟩ := Prod.mk.injEq .. ▸ (Option.some.injEq .. ▸ h)
          subst h1; subst h2
          obtain ⟨pre, rest, hsegs, htoks, _, href, hrest0⟩ :=
            ih rest0 (acc ++ [seg]) segs0 f0 hin
          obtain ⟨hseq, _⟩ := takeSeg_eq s seg rest0 htk
          refine ⟨seg :: pre, rest, by simpa using hsegs, ?_,
            fun _ => by simp, href, ?_⟩
          · intro t ht
            rcases List.mem_cons.mp ht with h | h
            · exact h ▸ htok
            · exact htoks t h
          · rw [hseq, hrest0]
            simp [flattenSegs]
      · simp only [goFuel, htk, if_neg htok] at h
        exact fromTryHere h

theorem goFuel_complete : ∀ segs fuel s acc f rest,
    (∀ t ∈ segs, tokenOK t = true) → RefOK f →
    s = flattenSegs segs ++ manifestsLit ++ f ++ rest →
    acc ++ segs ≠ [] → s.length < fuel →
    (goFuel fuel s acc).isSome = true := by
  intro segs
  induction segs with
  | nil =>
    intro fuel s acc f rest _ href hs hne hlen
    cases fuel with
    | zero => omega
    | succ n =>
      have hacc : acc ≠ [] := by simpa using hne
      have hs2 : s = "manifests".data ++ '/' :: (f ++ rest) := by
        rw [hs]; rfl
      have htk : takeSeg s = some ("manifests".data, f ++ rest) := by
        rw [hs2]
        exact takeSeg_append "manifests".data (f ++ rest) (by decide)
      have htok : tokenOK "manifests".data = true := by decide
      have hth : (tryHere s acc).isSome = true := by
        have hdp : dropPre manifestsLit s = some (f ++ rest) := by
          rw [hs]
          simp only [flattenSegs, List.nil_append, List.append_assoc]
          exact dropPre_append manifestsLit (f ++ rest)
        have hisEmp : acc.isEmpty = false := by
          cases acc with
          | nil => exact absurd rfl hacc
          | cons a as => rfl
        obtain ⟨f0, hf0⟩ := Option.isSome_iff_exists.mp (refMatch_isSome f rest href)
        simp [tryHere, hisEmp, hdp, hf0]
      simp only [goFuel, htk, if_pos htok]
      obtain hx | ⟨r, hx⟩ :=
        (goFuel n (f ++ rest) (acc ++ ["manifests".data])).eq_none_or_eq_some
      · rw [hx]; simpa using hth
      · rw [hx]; simp
  | cons seg ts ih =>
    intro fuel s acc f rest htoks href hs hne hlen
    cases fuel with
    | zero => omega
    | succ n =>
      have htokseg : tokenOK seg = true := htoks seg (by simp)
      have hs2 : s = seg ++ '/' :: (flattenSegs ts ++ manifestsLit ++ f ++ rest) := by
        rw [hs]; simp [flattenSegs]
      have htk : takeSeg s =
          some (seg, flattenSegs ts ++ manifestsLit ++ f ++ rest) := by
        rw [hs2]
        exact takeSeg_append seg _ (tokenOK_no_slash seg htokseg)
      have hlen2 : (flattenSegs ts ++ manifestsLit ++ f ++ rest).length < n := by
        have : s.length = seg.length + 1 +
            (flattenSegs ts ++ manifestsLit ++ f ++ rest).length := by
          rw [hs2]; simp; omega
        omega
      have hin := ih n (flattenSegs ts ++ manifestsLit ++ f ++ rest)
        (acc ++ [seg]) f rest (fun t ht => htoks t (by simp [ht])) href rfl
        (by simp) hlen2
      simp only [goFuel, htk, if_pos htokseg]
      obtain hx | ⟨r, hx⟩ :=
        (goFuel n (flattenSegs ts ++ manifestsLit ++ f ++ rest)
          (acc ++ [seg])).eq_none_or_eq_some
      · rw [hx] at hin; simp at hin
      · rw [hx]; simp

/-- C2 (corrected): `MatchPullManifest` returns `isManifestPull = true`
exactly when the method is GET and the path has a PREFIX of the form
`/v2/<segments>/manifests/<reference>` — the pattern is not
end-anchored, so characters after a valid reference are ignored rather
than rejected, and a reference longer than 128 characters matches on
its first 128 characters; any path with no such prefix, or a non-GET
method, yields `false` with empty repository and reference; on a match
the returned segment path is the captured segment run with its
trailing slash trimmed. -/
theorem matchPull_characterization (method path : String) :
    ((MatchPullManifest method path).1 = true ↔ SpecManifestPull method path)
    ∧ ((MatchPullManifest method path).1 = false →
        (MatchPullManifest method path).2 = ("", ""))
    ∧ ((MatchPullManifest method path).1 = true →
        ∃ segs f rest, segs ≠ [] ∧ (∀ t ∈ segs, tokenOK t = true) ∧ RefOK f ∧
          path.data = v2Lit ++ flattenSegs segs ++ manifestsLit ++ f ++ rest ∧
          (MatchPullManifest method path).2 =
            (String.mk (trimSlashSuffix (flattenSegs segs)), String.mk f)) := by
  by_cases hm : method = "GET"
  · subst hm
    cases hdp : dropPre v2Lit path.data with
    | none =>
      have hval : MatchPullManifest "GET" path = (false, "", "") := by
        simp [MatchPullManifest, hdp]
      refine ⟨⟨?_, ?_⟩, ?_, ?_⟩
      · intro h; rw [hval] at h; simp at h
      · rintro ⟨-, segs, f, rest, -, -, -, hpath⟩
        rw [hpath] at hdp
        simp only [List.append_assoc] at hdp
        rw [dropPre_append] at hdp
        simp at hdp
      · intro _; rw [hval]
      · intro h; rw [hval] at h; simp at h
    | some s =>
      cases hgo : goMatch s [] with
      | none =>
        have hval : MatchPullManifest "GET" path = (false, "", "") := by
          simp [MatchPullManifest, hdp, hgo]
        refine ⟨⟨?_, ?_⟩, ?_, ?_⟩
        · intro h; rw [hval] at h; simp at h
        · rintro ⟨-, segs, f, rest, hne, htoks, href, hpath⟩
          have hsX : s = flattenSegs segs ++ manifestsLit ++ f ++ rest := by
            rw [hpath] at hdp
            simp only [List.append_assoc] at hdp
            rw [dropPre_append] at hdp
            simp only [Option.some.injEq] at hdp
            rw [← hdp]
            simp [List.append_assoc]
          have := goFuel_complete segs (s.length + 1) s [] f rest htoks href
            hsX (by simpa using hne) (Nat.lt_succ_self _)
          rw [show goFuel (s.length + 1) s [] = goMatch s [] from rfl, hgo] at this
          simp at this
        · intro _; rw [hval]
        · intro h; rw [hval] at h; simp at h
      | some pr =>
        obtain ⟨segs, f⟩ := pr
        have hval : MatchPullManifest "GET" path =
            (true, String.mk (trimSlashSuffix (flattenSegs segs)), String.mk f) := by
          simp [MatchPullManifest, hdp, hgo]
        obtain ⟨pre, rest, hsegs, htoks, hpre, href, hsX⟩ :=
          goFuel_sound (s.length + 1) s [] segs f hgo
        have hsegs2 : segs = pre := by simpa using hsegs
        subst hsegs2
        have hpath : path.data = v2Lit ++ flattenSegs segs ++ manifestsLit ++ f ++ rest := by
          rw [dropPre_eq v2Lit path.data s hdp, hsX]
          simp
        refine ⟨⟨?_, ?_⟩, ?_, ?_⟩
        · intro _
          exact ⟨rfl, segs, f, rest, hpre rfl, htoks, href, hpath⟩
        · intro _; rw [hval]
        · intro h; rw [hval] at h; simp at h
        · intro _
          exact ⟨segs, f, rest, hpre rfl, htoks, href, hpath, by rw [hval]⟩
  · have hval : MatchPullManifest method path = (false, "", "") := by
      simp [MatchPullManifest, hm]
    refine ⟨⟨?_, ?_⟩, ?_, ?_⟩
    · intro h; rw [hval] at h; simp at h
    · rintro ⟨hg, -⟩; exact absurd hg hm
    · intro _; rw [hval]
    · intro h; rw [hval] at h; simp at h

/-- C2 counterexample: a GET path with extra trailing characters after
the reference (`!!!` cannot belong to a reference) is claimed to yield
`isManifestPull = false` with empty repository and reference, but
`MatchPullManifest` accepts it, because the compiled pattern is not
end-anchored. -/
theorem matchPull_trailing_counterexample :
    MatchPullManifest "GET" "/v2/a/b/manifests/latest!!!" =
      (true, "a/b", "latest") := by
  decide

/-- Witness for the C2 characterization at concrete inputs. -/
theorem matchPull_characterization_witness :
    SpecManifestPull "GET" "/v2/proj/repo/manifests/v1" ∧
      (MatchPullManifest "PUT" "/v2/proj/repo/manifests/v1").2 = ("", "") := by
  constructor
  · exact ((matchPull_characterization "GET" "/v2/proj/repo/manifests/v1").1).mp
      (by decide)
  · exact (matchPull_characterization "PUT" "/v2/proj/repo/manifests/v1").2.1
      (by decide)

theorem chainServe_none (w : World) (recorded : Response)
    (backend : Request → Response) (req : Request)
    (h : req.ctxImage = none) : chainServe w recorded backend req = backend req := by
  unfold chainServe contentTrustServe vulnerableServe funnelServe
  rw [h]

/-- C1 (code bug): for the matched GET manifest request whose
repository has a single `/`-separated component, the response status
is 400 but the JSON error body advertises code 500 —
interceptors.go line 131 passes `http.StatusInternalServerError` to
`marshalError` while answering `http.StatusBadRequest`, so the body's
`code` field does not equal the HTTP status as the spec requires. -/
theorem badRepo_code_mismatch (w : World) (backend : Request → Response) :
    fullServe w "" backend "GET" "/v2/singletoken/manifests/latest" =
      httpError (marshalError "Bad repository name: singletoken" 500) 400
    ∧ (fullServe w "" backend "GET" "/v2/singletoken/manifests/latest").status = 400
    ∧ errorBodyCode
        (fullServe w "" backend "GET" "/v2/singletoken/manifests/latest").body =
      some 500 := by
  have h : fullServe w "" backend "GET" "/v2/singletoken/manifests/latest" =
      httpError (marshalError "Bad repository name: singletoken" 500) 400 := by
    rfl
  refine ⟨h, ?_, ?_⟩
  · rw [h]; rfl
  · rw [h]; rfl

/-- C3 (code bug): the buffered response lives in the package-level
`var rec` shared by every request; when request B's buffering step
runs between request A's buffering and A's release, A's funnel replays
B's buffered response. The two backend responses are distinct, so A
observes B's buffer. -/
theorem sharedRec_interference :
    releaseFromShared
        (bufferInto backendAB reqB (bufferInto backendAB reqA { recSlot := newWriter })) =
      copyResp respB newWriter
    ∧ backendAB reqA ≠ backendAB reqB := by
  constructor
  · rfl
  · decide

/-- The early-replay behaviour of the url handler on a non-200
buffer, shared by the C4 theorem's conjuncts. -/
theorem fullServe_non200 (w : World) (pfx : String)
    (backend : Request → Response) (method path : String)
    (hmatch : (MatchPullManifest method (trimPfxS pfx path)).1 = true)
    (hcomp : ¬ (splitN2 (MatchPullManifest method (trimPfxS pfx path)).2.1.data).length < 2)
    (hstatus : (backend { method := method, path := trimPfxS pfx path, ctxImage := none }).status ≠ 200) :
    urlServe pfx (chainServe w newWriter backend) ⟨method, path, none⟩ =
      UrlOutcome.earlyReplay
        (copyResp (backend { method := method, path := trimPfxS pfx path, ctxImage := none }) newWriter)
    ∧ fullServe w pfx backend method path =
      copyResp (backend { method := method, path := trimPfxS pfx path, ctxImage := none }) newWriter := by
  have hreq : ({ method := method, path := path, ctxImage := none } : Request).method = method := rfl
  have hchain : chainServe w newWriter backend
      { method := method, path := trimPfxS pfx path, ctxImage := none } =
      backend { method := method, path := trimPfxS pfx path, ctxImage := none } :=
    chainServe_none w newWriter backend _ rfl
  have hurl : urlServe pfx (chainServe w newWriter backend) ⟨method, path, none⟩ =
      UrlOutcome.earlyReplay
        (copyResp (backend { method := method, path := trimPfxS pfx path, ctxImage := none }) newWriter) := by
    unfold urlServe
    simp only [hreq]
    rw [if_pos hmatch, if_neg hcomp, hchain, if_pos hstatus]
  refine ⟨hurl, ?_⟩
  unfold fullServe
  rw [hurl]

theorem matchLoop_nomatch (img : imageInfo) : ∀ ts,
    (∀ u ∈ ts, u.tag ≠ img.tag) → matchLoop img ts = Except.ok false := by
  intro ts
  induction ts with
  | nil => intro _; rfl
  | cons t ts ih =>
    intro hall
    have ht : ¬ t.tag = img.tag := hall t (by simp)
    simp only [matchLoop, if_neg ht]
    exact ih (fun u hu => hall u (by simp [hu]))

theorem matchLoop_first (img : imageInfo) : ∀ pre t post,
    (∀ u ∈ pre, u.tag ≠ img.tag) → t.tag = img.tag →
    matchLoop img (pre ++ t :: post) =
      (match t.digestResult with
       | Except.error e => Except.error e
       | Except.ok d => Except.ok (img.digest == d)) := by
  intro pre
  induction pre with
  | nil =>
    intro t post _ ht
    simp [matchLoop, ht]
  | cons u us ih =>
    intro t post hall ht
    have hu : ¬ u.tag = img.tag := hall u (by simp)
    simp only [List.cons_append, matchLoop, if_neg hu]
    exact ih t post (fun x hx => hall x (by simp [hx])) ht

theorem matchLoop_inv (img : imageInfo) : ∀ ts,
    ((∀ u ∈ ts, u.tag ≠ img.tag) ∧ matchLoop img ts = Except.ok false)
    ∨ (∃ pre t post, ts = pre ++ t :: post ∧ (∀ u ∈ pre, u.tag ≠ img.tag) ∧
        t.tag = img.tag ∧
        matchLoop img ts =
          (match t.digestResult with
           | Except.error e => Except.error e
           | Except.ok d => Except.ok (img.digest == d))) := by
  intro ts
  induction ts with
  | nil => exact Or.inl ⟨by simp, rfl⟩
  | cons t ts ih =>
    by_cases ht : t.tag = img.tag
    · refine Or.inr ⟨[], t, ts, by simp, by simp, ht, ?_⟩
      simp [matchLoop, ht]
    · rcases ih with ⟨hall, heq⟩ | ⟨pre, t0, post, hts, hpre, ht0, heq⟩
      · refine Or.inl ⟨?_, ?_⟩
        · intro u hu
          rcases List.mem_cons.mp hu with h | h
          · exact h ▸ ht
          · exact hall u h
        · simp only [matchLoop, if_neg ht]
          exact heq
      · refine Or.inr ⟨t :: pre, t0, post, by simp [hts], ?_, ht0, ?_⟩
        · intro u hu
          rcases List.mem_cons.mp hu with h | h
          · exact h ▸ ht
          · exact hpre u h
        · simp only [matchLoop, if_neg ht]
          exact heq

theorem matchNotary_ok_true_iff
    (g : String → Except Unit (List NotaryTarget)) (img : imageInfo) :
    matchNotaryDigest g img = Except.ok true ↔
      ∃ ts, g img.repository = Except.ok ts ∧
        ∃ pre t post, ts = pre ++ t :: post ∧ (∀ u ∈ pre, u.tag ≠ img.tag) ∧
          t.tag = img.tag ∧ t.digestResult = Except.ok img.digest := by
  constructor
  · intro h
    cases hg : g img.repository with
    | error e => simp [matchNotaryDigest, hg] at h
    | ok ts =>
      refine ⟨ts, rfl, ?_⟩
      simp only [matchNotaryDigest, hg] at h
      rcases matchLoop_inv img ts with ⟨-, heq⟩ | ⟨pre, t, post, hts, hpre, ht, heq⟩
      · rw [heq] at h; simp at h
      · rw [heq] at h
        cases hd : t.digestResult with
        | error e => rw [hd] at h; simp at h
        | ok d =>
          rw [hd] at h
          simp only [Except.ok.injEq] at h
          have : img.digest = d := by simpa using h
          exact ⟨pre, t, post, hts, hpre, ht, by rw [hd, this]⟩
  · rintro ⟨ts, hg, pre, t, post, hts, hpre, ht, hd⟩
    simp only [matchNotaryDigest, hg, hts]
    rw [matchLoop_first img pre t post hpre ht, hd]
    simp

theorem matchNotary_ok_false_iff
    (g : String → Except Unit (List NotaryTarget)) (img : imageInfo) :
    matchNotaryDigest g img = Except.ok false ↔
      ∃ ts, g img.repository = Except.ok ts ∧
        ((∀ u ∈ ts, u.tag ≠ img.tag) ∨
         ∃ pre t post d, ts = pre ++ t :: post ∧ (∀ u ∈ pre, u.tag ≠ img.tag) ∧
           t.tag = img.tag ∧ t.digestResult = Except.ok d ∧ d ≠ img.digest) := by
  constructor
  · intro h
    cases hg : g img.repository with
    | error e => simp [matchNotaryDigest, hg] at h
    | ok ts =>
      refine ⟨ts, rfl, ?_⟩
      simp only [matchNotaryDigest, hg] at h
      rcases matchLoop_inv img ts with ⟨hall, -⟩ | ⟨pre, t, post, hts, hpre, ht, heq⟩
      · exact Or.inl hall
      · rw [heq] at h
        cases hd : t.digestResult with
        | error e => rw [hd] at h; simp at h
        | ok d =>
          rw [hd] at h
          simp only [Except.ok.injEq] at h
          refine Or.inr ⟨pre, t, post, d, hts, hpre, ht, hd, ?_⟩
          intro hdd
          rw [← hdd] at h
          simp at h
  · rintro ⟨ts, hg, hcase⟩
    simp only [matchNotaryDigest, hg]
    rcases hcase with hall | ⟨pre, t, post, d, hts, hpre, ht, hd, hne⟩
    · exact matchLoop_nomatch img ts hall
    · rw [hts, matchLoop_first img pre t post hpre ht, hd]
      simp only [Except.ok.injEq]
      simp [beq_eq_false_iff_ne]
      exact fun h => hne h.symm

/-- C4 (confirmed): when the buffered backend response of a matched
manifest-pull request has a status other than 200, the url handler's
outcome is an immediate replay of that buffer — not a `forward`, so no
`imageInfo` is created and no context value is attached — the final
response is exactly the replayed buffer, and it is identical for any
two external worlds, so neither the content-trust check, the
vulnerability check, nor any policy lookup can influence it. -/
theorem nonOkBuffered_noPolicy (w w' : World) (pfx : String)
    (backend : Request → Response) (method path : String)
    (hmatch : (MatchPullManifest method (trimPfxS pfx path)).1 = true)
    (hcomp : ¬ (splitN2 (MatchPullManifest method (trimPfxS pfx path)).2.1.data).length < 2)
    (hstatus : (backend { method := method, path := trimPfxS pfx path, ctxImage := none }).status ≠ 200) :
    urlServe pfx (chainServe w newWriter backend) ⟨method, path, none⟩ =
      UrlOutcome.earlyReplay
        (copyResp (backend { method := method, path := trimPfxS pfx path, ctxImage := none }) newWriter)
    ∧ fullServe w pfx backend method path =
      copyResp (backend { method := method, path := trimPfxS pfx path, ctxImage := none }) newWriter
    ∧ fullServe w pfx backend method path = fullServe w' pfx backend method path := by
  obtain ⟨h1, h2⟩ := fullServe_non200 w pfx backend method path hmatch hcomp hstatus
  obtain ⟨-, h3⟩ := fullServe_non200 w' pfx backend method path hmatch hcomp hstatus
  exact ⟨h1, h2, by rw [h2, h3]⟩

/-- Witness for C4: a 404 backend answer is replayed unchanged under
two different worlds. -/
theorem nonOkBuffered_noPolicy_witness :
    fullServe wScanErr "" backend404 "GET" "/v2/proj/repo/manifests/v1" =
      copyResp resp404 newWriter
    ∧ fullServe wScanErr "" backend404 "GET" "/v2/proj/repo/manifests/v1" =
      fullServe wEmptyTargets "" backend404 "GET" "/v2/proj/repo/manifests/v1" := by
  have h := nonOkBuffered_noPolicy wScanErr wEmptyTargets "" backend404 "GET"
    "/v2/proj/repo/manifests/v1" (by decide) (by decide) (by decide)
  exact ⟨h.2.1, h.2.2⟩

/-- C5 (confirmed): the content-trust stage continues exactly when no
descriptor is in context, or notary is globally off, or the tenant
policy disables content trust, or the digests match; with the stage
active, a trust-subsystem query error yields the generic 500, and a
first-tag-match digest mismatch or missing tag yields the 412
not-signed denial, the last two conditions characterized over the
returned target list. -/
theorem contentTrust_spec (w : World) (req : Request) :
    (contentTrustServe w req = StageResult.next ↔
      (req.ctxImage = none ∨ w.withNotary = false ∨
       ∃ img, req.ctxImage = some img ∧
         (w.checker.contentTrustEnabled img.projectName = false ∨
          matchNotaryDigest w.notaryTargets img = Except.ok true)))
    ∧ (∀ img, req.ctxImage = some img → w.withNotary = true →
        w.checker.contentTrustEnabled img.projectName = true →
        ((∀ e, matchNotaryDigest w.notaryTargets img = Except.error e →
            contentTrustServe w req = StageResult.halt
              (httpError (marshalError
                "Failed in communication with Notary please check the log" 500) 500))
         ∧ (matchNotaryDigest w.notaryTargets img = Except.ok false →
            contentTrustServe w req = StageResult.halt
              (httpError (marshalError "The image is not signed in Notary." 412) 412))
         ∧ (matchNotaryDigest w.notaryTargets img = Except.ok true ↔
            ∃ ts, w.notaryTargets img.repository = Except.ok ts ∧
              ∃ pre t post, ts = pre ++ t :: post ∧
                (∀ u ∈ pre, u.tag ≠ img.tag) ∧ t.tag = img.tag ∧
                t.digestResult = Except.ok img.digest)
         ∧ (matchNotaryDigest w.notaryTargets img = Except.ok false ↔
            ∃ ts, w.notaryTargets img.repository = Except.ok ts ∧
              ((∀ u ∈ ts, u.tag ≠ img.tag) ∨
               ∃ pre t post d, ts = pre ++ t :: post ∧
                 (∀ u ∈ pre, u.tag ≠ img.tag) ∧ t.tag = img.tag ∧
                 t.digestResult = Except.ok d ∧ d ≠ img.digest)))) := by
  constructor
  · cases hctx : req.ctxImage with
    | none =>
      have hserve : contentTrustServe w req = StageResult.next := by
        simp [contentTrustServe, hctx]
      simp [hserve]
    | some img =>
      by_cases hN : w.withNotary = false
      · have hserve : contentTrustServe w req = StageResult.next := by
          simp [contentTrustServe, hctx, hN]
        simp only [hserve]
        exact ⟨fun _ => Or.inr (Or.inl hN), fun _ => trivial⟩
      · by_cases hE : w.checker.contentTrustEnabled img.projectName = false
        · have hserve : contentTrustServe w req = StageResult.next := by
            simp [contentTrustServe, hctx, hN, hE]
          simp only [hserve]
          exact ⟨fun _ => Or.inr (Or.inr ⟨img, rfl, Or.inl hE⟩), fun _ => trivial⟩
        · cases hmd : matchNotaryDigest w.notaryTargets img with
          | error e =>
            have hserve : contentTrustServe w req = StageResult.halt
                (httpError (marshalError
                  "Failed in communication with Notary please check the log" 500) 500) := by
              simp [contentTrustServe, hctx, hN, hE, hmd]
            rw [hserve]
            constructor
            · intro h; simp at h
            · rintro (h | h | ⟨img2, himg2, h⟩)
              · simp at h
              · exact absurd h hN
              · have : img2 = img := by
                  simpa using himg2.symm
                subst this
                rcases h with h | h
                · exact absurd h hE
                · rw [hmd] at h; simp at h
          | ok b =>
            cases b with
            | false =>
              have hserve : contentTrustServe w req = StageResult.halt
                  (httpError (marshalError "The image is not signed in Notary." 412) 412) := by
                simp [contentTrustServe, hctx, hN, hE, hmd]
              rw [hserve]
              constructor
              · intro h; simp at h
              · rintro (h | h | ⟨img2, himg2, h⟩)
                · simp at h
                · exact absurd h hN
                · have : img2 = img := by simpa using himg2.symm
                  subst this
                  rcases h with h | h
                  · exact absurd h hE
                  · rw [hmd] at h; simp at h
            | true =>
              have hserve : contentTrustServe w req = StageResult.next := by
                simp [contentTrustServe, hctx, hN, hE, hmd]
              simp only [hserve]
              exact ⟨fun _ => Or.inr (Or.inr ⟨img, rfl, Or.inr hmd⟩), fun _ => trivial⟩
  · intro img hctx hN hE
    have hNn : ¬ w.withNotary = false := by rw [hN]; simp
    have hEn : ¬ w.checker.contentTrustEnabled img.projectName = false := by
      rw [hE]; simp
    refine ⟨?_, ?_, matchNotary_ok_true_iff w.notaryTargets img,
      matchNotary_ok_false_iff w.notaryTargets img⟩
    · intro e hmd
      simp [contentTrustServe, hctx, hNn, hEn, hmd]
    · intro hmd
      simp [contentTrustServe, hctx, hNn, hEn, hmd]

/-- Witness for C5: with the trust subsystem returning an empty target
list, the active content-trust stage denies with the 412 not-signed
response. -/
theorem contentTrust_spec_witness :
    contentTrustServe wEmptyTargets reqEx = StageResult.halt
      (httpError (marshalError "The image is not signed in Notary." 412) 412) :=
  ((contentTrust_spec wEmptyTargets reqEx).2 imgEx rfl rfl rfl).2.1 rfl

/-- C10 (confirmed): the digest decision of `matchNotaryDigest` is
made solely by the first target in list order whose tag equals the
descriptor's tag — targets after it are never examined, so replacing
them changes nothing — and an absent tag yields a non-error false. -/
theorem matchNotaryDigest_firstMatch (img : imageInfo) :
    (∀ (g g' : String → Except Unit (List NotaryTarget))
        (pre : List NotaryTarget) (t : NotaryTarget)
        (post post' : List NotaryTarget),
      g img.repository = Except.ok (pre ++ t :: post) →
      g' img.repository = Except.ok (pre ++ t :: post') →
      (∀ u ∈ pre, u.tag ≠ img.tag) → t.tag = img.tag →
      matchNotaryDigest g img = matchNotaryDigest g' img
      ∧ matchNotaryDigest g img =
          (match t.digestResult with
           | Except.error e => Except.error e
           | Except.ok d => Except.ok (img.digest == d)))
    ∧ (∀ (g : String → Except Unit (List NotaryTarget)) (ts : List NotaryTarget),
        g img.repository = Except.ok ts → (∀ u ∈ ts, u.tag ≠ img.tag) →
        matchNotaryDigest g img = Except.ok false) := by
  constructor
  · intro g g' pre t post post' hg hg' hpre ht
    have h1 : matchNotaryDigest g img =
        (match t.digestResult with
         | Except.error e => Except.error e
         | Except.ok d => Except.ok (img.digest == d)) := by
      simp only [matchNotaryDigest, hg]
      exact matchLoop_first img pre t post hpre ht
    have h2 : matchNotaryDigest g' img =
        (match t.digestResult with
         | Except.error e => Except.error e
         | Except.ok d => Except.ok (img.digest == d)) := by
      simp only [matchNotaryDigest, hg']
      exact matchLoop_first img pre t post' hpre ht
    exact ⟨by rw [h1, h2], h1⟩
  · intro g ts hg hall
    simp only [matchNotaryDigest, hg]
    exact matchLoop_nomatch img ts hall

/-- Witness for C10: with two same-tag targets whose digests differ,
the first target alone decides (the image digest equals only the
second target's digest, yet the result is false), and dropping the
later target does not change the result. -/
theorem matchNotaryDigest_firstMatch_witness :
    matchNotaryDigest notaryDup imgDup = Except.ok false ∧
      matchNotaryDigest notaryDup imgDup = matchNotaryDigest notaryFirst imgDup := by
  have h := (matchNotaryDigest_firstMatch imgDup).1 notaryDup notaryFirst []
    { tag := "v1", digestResult := Except.ok "sha256:one" }
    [{ tag := "v1", digestResult := Except.ok "sha256:two" }] [] rfl rfl
    (by simp) rfl
  exact ⟨by rw [h.2]; rfl, h.1⟩

/-- C6 (confirmed): in the vulnerability stage, a scan-overview lookup
error denies with status 412 (not 500), and an absent overview denies
with 412 and the unavailable-scan message; in both cases the chain
halts before the funnel, so the final response does not depend on the
buffered response, which therefore never reaches the client. -/
theorem vulnerable_failClosed (w : World) (req : Request) (img : imageInfo)
    (recorded recorded' : Response) (backend : Request → Response)
    (hctx : req.ctxImage = some img) (hclair : w.withClair = true)
    (henabled : (w.checker.vulnerablePolicy img.projectName).1 = true) :
    ((∀ e, w.scanOverview img.digest = Except.error e →
       vulnerableServe w req = StageResult.halt
         (httpError (marshalError "Failed to get ImgScanOverview." 412) 412)
       ∧ (httpError (marshalError "Failed to get ImgScanOverview." 412) 412).status = 412
       ∧ (contentTrustServe w req = StageResult.next →
          chainServe w recorded backend req =
            httpError (marshalError "Failed to get ImgScanOverview." 412) 412
          ∧ chainServe w recorded backend req = chainServe w recorded' backend req))
     ∧ (w.scanOverview img.digest = Except.ok none →
       vulnerableServe w req = StageResult.halt
         (httpError (marshalError "Cannot get the image scan overview info." 412) 412)
       ∧ (contentTrustServe w req = StageResult.next →
          chainServe w recorded backend req =
            httpError (marshalError "Cannot get the image scan overview info." 412) 412
          ∧ chainServe w recorded backend req = chainServe w recorded' backend req))) := by
  have hclairn : ¬ w.withClair = false := by rw [hclair]; simp
  have henn : ¬ (w.checker.vulnerablePolicy img.projectName).1 = false := by
    rw [henabled]; simp
  constructor
  · intro e hscan
    have hserve : vulnerableServe w req = StageResult.halt
        (httpError (marshalError "Failed to get ImgScanOverview." 412) 412) := by
      simp [vulnerableServe, hctx, hclairn, henn, hscan]
    refine ⟨hserve, rfl, ?_⟩
    intro hct
    have hchain : ∀ r0 : Response, chainServe w r0 backend req =
        httpError (marshalError "Failed to get ImgScanOverview." 412) 412 := by
      intro r0
      unfold chainServe
      rw [hct, hserve]
    exact ⟨hchain recorded, by rw [hchain recorded, hchain recorded']⟩
  · intro hscan
    have hserve : vulnerableServe w req = StageResult.halt
        (httpError (marshalError "Cannot get the image scan overview info." 412) 412) := by
      simp [vulnerableServe, hctx, hclairn, henn, hscan]
    refine ⟨hserve, ?_⟩
    intro hct
    have hchain : ∀ r0 : Response, chainServe w r0 backend req =
        httpError (marshalError "Cannot get the image scan overview info." 412) 412 := by
      intro r0
      unfold chainServe
      rw [hct, hserve]
    exact ⟨hchain recorded, by rw [hchain recorded, hchain recorded']⟩

/-- Witness for C6 at concrete worlds: lookup error and absent
overview each produce the 412 denial and the chain returns it. -/
theorem vulnerable_failClosed_witness :
    vulnerableServe wScanErr reqEx = StageResult.halt
      (httpError (marshalError "Failed to get ImgScanOverview." 412) 412)
    ∧ chainServe wScanErr respA backend404 reqEx =
        httpError (marshalError "Failed to get ImgScanOverview." 412) 412
    ∧ vulnerableServe wScanNone reqEx = StageResult.halt
      (httpError (marshalError "Cannot get the image scan overview info." 412) 412) := by
  have h1 := vulnerable_failClosed wScanErr reqEx imgEx respA respB backend404
    rfl rfl rfl
  have h2 := vulnerable_failClosed wScanNone reqEx imgEx respA respB backend404
    rfl rfl rfl
  exact ⟨(h1.1 () rfl).1, ((h1.1 () rfl).2.2 rfl).1, (h2.2 rfl).1⟩

/-- C7 (confirmed): with a scan overview on record, the vulnerability
stage denies with 412 and the message naming the image severity and
the tenant threshold exactly when the image severity is greater than
or equal to the threshold, and continues exactly when it is strictly
below. -/
theorem vulnerable_threshold (w : World) (req : Request) (img : imageInfo)
    (ov : ImgScanOverview)
    (hctx : req.ctxImage = some img) (hclair : w.withClair = true)
    (henabled : (w.checker.vulnerablePolicy img.projectName).1 = true)
    (hscan : w.scanOverview img.digest = Except.ok (some ov)) :
    (vulnerableServe w req = StageResult.halt
        (httpError (marshalError
          (vulnDenyMsg ov.sev (w.checker.vulnerablePolicy img.projectName).2) 412) 412)
      ↔ ov.sev.toNat ≥ ((w.checker.vulnerablePolicy img.projectName).2).toNat)
    ∧ (vulnerableServe w req = StageResult.next
      ↔ ov.sev.toNat < ((w.checker.vulnerablePolicy img.projectName).2).toNat) := by
  have hclairn : ¬ w.withClair = false := by rw [hclair]; simp
  have henn : ¬ (w.checker.vulnerablePolicy img.projectName).1 = false := by
    rw [henabled]; simp
  by_cases hge : ov.sev.toNat ≥ ((w.checker.vulnerablePolicy img.projectName).2).toNat
  · have hserve : vulnerableServe w req = StageResult.halt
        (httpError (marshalError
          (vulnDenyMsg ov.sev (w.checker.vulnerablePolicy img.projectName).2) 412) 412) := by
      simp [vulnerableServe, hctx, hclairn, henn, hscan, hge]
    rw [hserve]
    constructor
    · exact ⟨fun _ => hge, fun _ => rfl⟩
    · constructor
      · intro h; simp at h
      · intro h; omega
  · have hserve : vulnerableServe w req = StageResult.next := by
      simp [vulnerableServe, hctx, hclairn, henn, hscan, hge]
    rw [hserve]
    constructor
    · constructor
      · intro h; simp at h
      · intro h; exact absurd h hge
    · exact ⟨fun _ => by omega, fun _ => rfl⟩

/-- Witness for C7: a high-severity image against a medium threshold
is denied with the message naming both severities. -/
theorem vulnerable_threshold_witness :
    vulnerableServe wScanHigh reqEx = StageResult.halt
      (httpError (marshalError (vulnDenyMsg Severity.high Severity.medium) 412) 412) := by
  have h := vulnerable_threshold wScanHigh reqEx imgEx
    { sev := Severity.high } rfl rfl rfl rfl
  exact h.1.mpr (by decide)

/-- C8 (confirmed): when the tenant-store lookup fails, the
store-driven policy checker reports content trust enabled and the
vulnerability policy enabled with the unknown severity level, which is
the least (strictest-threshold) severity — policy-lookup failure never
disables enforcement. -/
theorem pmsPolicyChecker_failClosed (pm : ProjectManager) (name : String)
    (h : pm.get name = Except.error ()) :
    (pmsPolicyChecker pm).contentTrustEnabled name = true
    ∧ (pmsPolicyChecker pm).vulnerablePolicy name = (true, Severity.unknown)
    ∧ ∀ s : Severity, Severity.unknown.toNat ≤ s.toNat := by
  refine ⟨?_, ?_, ?_⟩
  · simp [pmsPolicyChecker, h]
  · simp [pmsPolicyChecker, h]
  · intro s; cases s <;> simp [Severity.toNat]

/-- Witness for C8 at a concrete failing store. -/
theorem pmsPolicyChecker_failClosed_witness :
    (pmsPolicyChecker pmErr).contentTrustEnabled "tenant" = true
    ∧ (pmsPolicyChecker pmErr).vulnerablePolicy "tenant" = (true, Severity.unknown) := by
  have h := pmsPolicyChecker_failClosed pmErr "tenant" rfl
  exact ⟨h.1, h.2.1⟩

theorem lookupHeader_setHeader_self : ∀ hs k v,
    lookupHeader (setHeader hs k v) k = some v := by
  intro hs
  induction hs with
  | nil => intro k v; simp [setHeader, lookupHeader]
  | cons kv rest ih =>
    intro k v
    by_cases hk : kv.1 = k
    · simp [setHeader, hk, lookupHeader]
    · simp only [setHeader, if_neg hk, lookupHeader, hk, if_false]
      exact ih k v

theorem lookupHeader_setHeader_other : ∀ hs k k2 v, k2 ≠ k →
    lookupHeader (setHeader hs k2 v) k = lookupHeader hs k := by
  intro hs
  induction hs with
  | nil => intro k k2 v hne; simp [setHeader, lookupHeader, hne]
  | cons kv rest ih =>
    intro k k2 v hne
    by_cases hk : kv.1 = k2
    · simp only [setHeader, if_pos hk, lookupHeader, hne, if_false]
      have hkn : ¬ kv.1 = k := by rw [hk]; exact hne
      rw [if_neg hkn]
    · simp only [setHeader, if_neg hk, lookupHeader]
      by_cases hkk : kv.1 = k
      · simp [hkk]
      · simp only [hkk, if_false]
        exact ih k k2 v hne

theorem copyHeaders_nomem : ∀ (src dst : List (String × List String)) k,
    k ∉ src.map Prod.fst →
    lookupHeader (copyHeaders dst src) k = lookupHeader dst k := by
  intro src
  induction src with
  | nil => intro dst k _; rfl
  | cons kv rest ih =>
    intro dst k hk
    have hk1 : kv.1 ≠ k := by
      intro h; exact hk (by simp [h])
    have hk2 : k ∉ rest.map Prod.fst := by
      intro h; exact hk (by simp [h])
    show lookupHeader (copyHeaders (setHeader dst kv.1 kv.2) rest) k = _
    rw [ih (setHeader dst kv.1 kv.2) k hk2]
    exact lookupHeader_setHeader_other dst k kv.1 kv.2 hk1

theorem copyHeaders_mem : ∀ (src dst : List (String × List String)) k v,
    (src.map Prod.fst).Nodup → (k, v) ∈ src →
    lookupHeader (copyHeaders dst src) k = some v := by
  intro src
  induction src with
  | nil => intro dst k v _ hmem; simp at hmem
  | cons kv rest ih =>
    intro dst k v hnd hmem
    have hnd' : (kv.1 :: rest.map Prod.fst).Nodup := by simpa using hnd
    have hnd1 : kv.1 ∉ rest.map Prod.fst := (List.nodup_cons.mp hnd').1
    have hnd2 : (rest.map Prod.fst).Nodup := (List.nodup_cons.mp hnd').2
    rcases List.mem_cons.mp hmem with h | h
    · have hkv : kv = (k, v) := h.symm
      subst hkv
      show lookupHeader (copyHeaders (setHeader dst k v) rest) k = some v
      rw [copyHeaders_nomem rest (setHeader dst k v) k hnd1]
      exact lookupHeader_setHeader_self dst k v
    · show lookupHeader (copyHeaders (setHeader dst kv.1 kv.2) rest) k = some v
      exact ih (setHeader dst kv.1 kv.2) k v hnd2 h

/-- C9 (confirmed): the released replay carries the buffered status,
the buffered body unchanged, and every buffered header unchanged (the
recorder's header map has distinct keys); a request holding a
descriptor is answered by exactly this replay, and a request with no
descriptor passes through the funnel — and through the whole policy
chain — to the next handler untouched. -/
theorem funnel_replay_spec (recorded : Response) (req : Request)
    (w : World) (backend : Request → Response) :
    ((copyResp recorded newWriter).status = recorded.status
     ∧ (copyResp recorded newWriter).body = recorded.body
     ∧ ((recorded.headers.map Prod.fst).Nodup →
        ∀ k v, (k, v) ∈ recorded.headers →
          lookupHeader (copyResp recorded newWriter).headers k = some v))
    ∧ (∀ img, req.ctxImage = some img →
        funnelServe recorded req = StageResult.halt (copyResp recorded newWriter))
    ∧ (req.ctxImage = none → funnelServe recorded req = StageResult.next)
    ∧ (req.ctxImage = none → chainServe w recorded backend req = backend req) := by
  refine ⟨⟨rfl, rfl, ?_⟩, ?_, ?_, ?_⟩
  · intro hnd k v hmem
    exact copyHeaders_mem recorded.headers [] k v hnd hmem
  · intro img hctx
    simp [funnelServe, hctx]
  · intro hctx
    simp [funnelServe, hctx]
  · intro hctx
    exact chainServe_none w recorded backend req hctx

/-- Witness for C9 at a concrete buffered response and request. -/
theorem funnel_replay_spec_witness :
    funnelServe respA reqEx = StageResult.halt (copyResp respA newWriter)
    ∧ lookupHeader (copyResp respA newWriter).headers "Docker-Content-Digest" =
        some ["sha256:aaa"]
    ∧ chainServe wEmptyTargets respA backendAB reqA = backendAB reqA := by
  have h := funnel_replay_spec respA reqEx wEmptyTargets backendAB
  have h2 := funnel_replay_spec respA reqA wEmptyTargets backendAB
  exact ⟨h.2.1 imgEx rfl,
    h.1.2.2 (by decide) "Docker-Content-Digest" ["sha256:aaa"] (by decide),
    h2.2.2.2 rfl⟩
